import Mathlib

/-!
Verification of the capacity-estimator, incremental-dump driver, dataset
split, CLI defaulting and normalization logic of the recsys-examples
repository (corelib/dynamicemb/example/example.py and
examples/hstu/modules/output_postprocessors.py), as a shallow embedding.
-/

namespace RecsysExamples

/-! ## Capacity estimator (get_planner, example.py) -/

/-- Fuel-based executable ceiling base-2 logarithm: `ceilLog2Aux fuel n`
computes the least `k` with `n ≤ 2 ^ k` as long as `n ≤ fuel` (the fuel only
makes the recursion structural; `ceilLog2Aux_eq_clog` shows it computes
`Nat.clog 2 n`). -/
def ceilLog2Aux : ℕ → ℕ → ℕ
  | 0, _ => 0
  | fuel + 1, n => if n ≤ 1 then 0 else ceilLog2Aux fuel ((n + 1) / 2) + 1

/-- Exact-arithmetic reading of Python's `math.ceil(math.log2(n))` on a
positive natural `n` (executable form of `Nat.clog 2 n`). -/
def ceilLog2 (n : ℕ) : ℕ :=
  ceilLog2Aux n n

/-- The fuel-based recursion agrees with `Nat.clog 2` once the fuel covers
the argument. -/
theorem ceilLog2Aux_eq_clog : ∀ fuel n, n ≤ fuel → ceilLog2Aux fuel n = Nat.clog 2 n := by
  intro fuel
  induction fuel with
  | zero =>
    intro n hn
    have : n = 0 := by omega
    simp [this, ceilLog2Aux]
  | succ fuel ih =>
    intro n hn
    by_cases h1 : n ≤ 1
    · simp [ceilLog2Aux, h1, Nat.clog_of_right_le_one h1]
    · have h2 : 2 ≤ n := by omega
      have hrec : (n + 1) / 2 ≤ fuel := by omega
      have : ceilLog2Aux (fuel + 1) n = ceilLog2Aux fuel ((n + 1) / 2) + 1 := by
        simp [ceilLog2Aux, h1]
      rw [this, ih _ hrec, Nat.clog_of_two_le (by norm_num) h2]
      norm_num

/-- Agreement with `Nat.clog 2` at full fuel. -/
theorem ceilLog2_eq_clog (n : ℕ) : ceilLog2 n = Nat.clog 2 n :=
  ceilLog2Aux_eq_clog n n le_rfl

/-- Embedding of the row-count rounding `2 ** math.ceil(math.log2(n))` in
`get_planner`, with `math.log2`/`math.ceil` read as exact real operations:
for a natural `n`, `ceil (log2 n)` is `ceilLog2 n = Nat.clog 2 n`. -/
def emb_num_embeddings_next_power_of_2 (n : ℕ) : ℕ :=
  2 ^ ceilLog2 n

/-- Helper existence fact: some power of two is at least `n`. -/
theorem exists_two_pow_ge (n : ℕ) : ∃ k, n ≤ 2 ^ k :=
  ⟨n, (Nat.lt_two_pow n).le⟩

/-- The specification's `next_power_of_two`: the smallest power of two that
is at least `n`, written independently of the code via `Nat.find` (this is
the spec-side definition used for the refinement claim about
`total_hbm_need`). -/
def next_power_of_two (n : ℕ) : ℕ :=
  2 ^ Nat.find (exists_two_pow_ge n)

/-- Embedding of `total_hbm_need = embedding_type_bytes * dim *
emb_num_embeddings_next_power_of_2` in `get_planner`, where
`embedding_type_bytes = DATA_TYPE_NUM_BITS[data_type] / 8` (exact, since all
table bit widths 32/16/16 are divisible by 8). -/
def total_hbm_need (dataTypeBits dim numEmbeddings : ℕ) : ℕ :=
  (dataTypeBits / 8) * dim * emb_num_embeddings_next_power_of_2 numEmbeddings

/-- Embedding of Python's `math.ceil(math.log2(n))` on an arbitrary natural
argument: `math.log2` raises `ValueError: math domain error` on non-positive
input and otherwise the rounded-up exact logarithm is `Nat.clog 2 n`. -/
def py_ceil_log2 (n : ℕ) : Except String ℕ :=
  if n = 0 then Except.error "math domain error" else Except.ok (ceilLog2 n)

/-- The per-table capacity computation of `get_planner` as Python executes
it: the only failure path is `math.log2`'s domain error when the declared
row count is zero; the code performs no validation of the dimension. -/
def get_planner_hbm (dataTypeBits dim numEmbeddings : ℕ) : Except String ℕ :=
  (py_ceil_log2 numEmbeddings).map fun c => (dataTypeBits / 8) * dim * 2 ^ c

/-- Shared bound: for `n ≥ 1` the rounded row count stays below `2 * n`. -/
theorem emb_next_pow2_lt_two_mul {n : ℕ} (hn : 1 ≤ n) :
    emb_num_embeddings_next_power_of_2 n < 2 * n := by
  unfold emb_num_embeddings_next_power_of_2
  rw [ceilLog2_eq_clog]
  rcases Nat.lt_or_ge n 2 with h2 | h2
  · have hn1 : n = 1 := by omega
    subst hn1
    rw [Nat.clog_one_right]
    norm_num
  · have hpos : 0 < Nat.clog 2 n := Nat.clog_pos (by norm_num) h2
    have hlt : 2 ^ (Nat.clog 2 n - 1) < n :=
      Nat.pow_pred_clog_lt_self (by norm_num) h2
    have hk : Nat.clog 2 n - 1 + 1 = Nat.clog 2 n := Nat.succ_pred_eq_of_pos hpos
    rw [← hk, pow_succ]
    omega

/-- Shared refinement lemma: the code's rounding equals the spec-side
smallest power of two at least `n`. -/
theorem emb_next_pow2_eq_spec (n : ℕ) :
    emb_num_embeddings_next_power_of_2 n = next_power_of_two n := by
  unfold emb_num_embeddings_next_power_of_2 next_power_of_two
  rw [ceilLog2_eq_clog]
  have hfind := Nat.find_spec (exists_two_pow_ge n)
  have h1 : Nat.find (exists_two_pow_ge n) ≤ Nat.clog 2 n :=
    Nat.find_le (Nat.le_pow_clog (by norm_num) n)
  have h2 : Nat.clog 2 n ≤ Nat.find (exists_two_pow_ge n) :=
    (Nat.le_pow_iff_clog_le (by norm_num)).mp hfind
  rw [Nat.le_antisymm h2 h1]

/-- Shared concrete evaluation: `ceil (log2 10000) = 14`. -/
theorem ceilLog2_10000 : ceilLog2 10000 = 14 := by
  decide

/-- C1: for every integer `n ≥ 1`, the row-count rounding
`2 ** math.ceil(math.log2(n))` used by `get_planner` returns a power of two
`p` with `n ≤ p` and `p < 2 * n`. -/
theorem capacity_rounding_bounds (n : ℕ) (hn : 1 ≤ n) :
    (∃ k, emb_num_embeddings_next_power_of_2 n = 2 ^ k) ∧
      n ≤ emb_num_embeddings_next_power_of_2 n ∧
      emb_num_embeddings_next_power_of_2 n < 2 * n := by
  refine ⟨⟨ceilLog2 n, rfl⟩, ?_, emb_next_pow2_lt_two_mul hn⟩
  unfold emb_num_embeddings_next_power_of_2
  rw [ceilLog2_eq_clog]
  exact Nat.le_pow_clog (by norm_num) n

/-- Witness for C1 at `n = 10000`. -/
theorem capacity_rounding_bounds_witness :
    1 ≤ 10000 ∧
      ((∃ k, emb_num_embeddings_next_power_of_2 10000 = 2 ^ k) ∧
        10000 ≤ emb_num_embeddings_next_power_of_2 10000 ∧
        emb_num_embeddings_next_power_of_2 10000 < 2 * 10000) :=
  ⟨by norm_num, capacity_rounding_bounds 10000 (by norm_num)⟩

/-- C2: for every embedding config with vector width `d ≥ 1`, declared row
count `n ≥ 1` and bytes-per-element `b` (bit width `8 * b`), the fast-memory
bytes computed by `get_planner` equal `b * d * next_power_of_two n` with the
spec-side `next_power_of_two`; and concretely for `d = 64`, `n = 10000`,
`b = 4` (FP32, 32 bits) the result is `4 * 64 * 16384 = 4194304` bytes. -/
theorem total_hbm_need_formula (b d n : ℕ) (hd : 1 ≤ d) (hn : 1 ≤ n) :
    total_hbm_need (8 * b) d n = b * d * next_power_of_two n ∧
      total_hbm_need 32 64 10000 = 4194304 := by
  constructor
  · unfold total_hbm_need
    have hb : 8 * b / 8 = b := by omega
    rw [hb, emb_next_pow2_eq_spec]
  · unfold total_hbm_need emb_num_embeddings_next_power_of_2
    rw [ceilLog2_10000]
    norm_num

/-- Witness for C2 at `b = 4`, `d = 64`, `n = 10000`. -/
theorem total_hbm_need_formula_witness :
    (1 ≤ 64 ∧ 1 ≤ 10000) ∧
      (total_hbm_need (8 * 4) 64 10000 = 4 * 64 * next_power_of_two 10000 ∧
        total_hbm_need 32 64 10000 = 4194304) :=
  ⟨⟨by norm_num, by norm_num⟩, total_hbm_need_formula 4 64 10000 (by norm_num) (by norm_num)⟩

/-- C3 counterexample: for vector width `d = 0 < 1` (row count `n = 1`) the
capacity computation of `get_planner` raises no error at all and produces
the capacity value `0`, contradicting the claim that it fails with
`InvalidConfig` whenever `d < 1` and produces no capacity value. -/
theorem invalid_config_counterexample :
    get_planner_hbm 32 0 1 = Except.ok 0 := by
  simp [get_planner_hbm, py_ceil_log2, Except.map]

/-- C3 amended: the capacity computation fails only for row count `n < 1`
(with `math.log2`'s `ValueError: math domain error`, not an `InvalidConfig`
check) before any planning proceeds; for `n ≥ 1` it succeeds for every
dimension `d`, including `d < 1`, producing
`(bits / 8) * d * 2 ^ ceil (log2 n)`. -/
theorem capacity_error_behavior (bits d n : ℕ) (hn : 1 ≤ n) :
    get_planner_hbm bits d 0 = Except.error "math domain error" ∧
      get_planner_hbm bits d n =
        Except.ok ((bits / 8) * d * emb_num_embeddings_next_power_of_2 n) := by
  constructor
  · rfl
  · unfold get_planner_hbm py_ceil_log2 emb_num_embeddings_next_power_of_2
    rw [if_neg (by omega : ¬ n = 0)]
    rfl

/-- Witness for the amended C3 at `bits = 32`, `d = 64`, `n = 10000`. -/
theorem capacity_error_behavior_witness :
    1 ≤ 10000 ∧
      (get_planner_hbm 32 64 0 = Except.error "math domain error" ∧
        get_planner_hbm 32 64 10000 =
          Except.ok ((32 / 8) * 64 * emb_num_embeddings_next_power_of_2 10000)) :=
  ⟨by norm_num, capacity_error_behavior 32 64 10000 (by norm_num)⟩

/-! ## Incremental-dump driver (inc_dump, example.py)

The driver threads a watermark variable `undumped_score` through the
training loop: it is initialized from `get_score(model)` and reassigned
from the second component of each `incremental_dump(model, undumped_score)`
result. The external library functions `get_score` / `incremental_dump` and
the training step are parameters of the embedding; the driver logic (loop
structure, threading of the score, storage effects) is translated from the
source. -/

/-- Storage-relevant primitive actions the drivers perform. `inc_dump` only
creates the save directory and prints log lines; the `dump` driver is the
one that writes checkpoint files. -/
inductive DriverEffect where
  | makeDirs (path : String)
  | fileWrite (path : String)
  | logPrint
  deriving DecidableEq

/-- Loop state of `inc_dump`: the trained model, the `undumped_score`
variable, the log of `incremental_dump` calls as
(`since_watermark` passed in, watermark returned) pairs, and the storage
effects performed so far. -/
structure IncDumpState (M S : Type) where
  model : M
  score : S
  calls : List (S × S)
  effects : List DriverEffect

/-- One iteration of the inner batch loop of `inc_dump`: a training step
(forward/backward/optimizer, no storage effect), then, when
`batchIdx % 100 = 0`, a call to `incremental_dump` whose returned watermark
overwrites `undumped_score` and whose returned tensors are only counted for
the printed log line. -/
def incDumpBatch {M S T : Type} (trainStep : M → M) (incDumpFn : M → S → T × S)
    (st : IncDumpState M S) (batchIdx : ℕ) : IncDumpState M S :=
  if batchIdx % 100 = 0 then
    { model := trainStep st.model,
      score := (incDumpFn (trainStep st.model) st.score).2,
      calls := st.calls ++ [(st.score, (incDumpFn (trainStep st.model) st.score).2)],
      effects := st.effects ++ [DriverEffect.logPrint] }
  else
    { model := trainStep st.model, score := st.score, calls := st.calls,
      effects := st.effects }

/-- One epoch of `inc_dump`: the batch loop over batch indices
`0, …, numBatches - 1` followed by the average-loss print. -/
def incDumpEpoch {M S T : Type} (trainStep : M → M) (incDumpFn : M → S → T × S)
    (numBatches : ℕ) (st : IncDumpState M S) : IncDumpState M S :=
  let st2 := (List.range numBatches).foldl (incDumpBatch trainStep incDumpFn) st
  { st2 with effects := st2.effects ++ [DriverEffect.logPrint] }

/-- Embedding of the `inc_dump` driver: `os.makedirs(args.save_dir)`, then
`undumped_score = get_score(model)`, then `epochs` epochs of the batch
loop. -/
def inc_dump {M S T : Type} (trainStep : M → M) (getScore : M → S)
    (incDumpFn : M → S → T × S) (m0 : M) (numEpochs numBatches : ℕ) :
    IncDumpState M S :=
  (List.range numEpochs).foldl
    (fun st _ => incDumpEpoch trainStep incDumpFn numBatches st)
    { model := m0, score := getScore m0, calls := [],
      effects := [DriverEffect.makeDirs "args.save_dir"] }

/-- The call log is a forward-passing chain starting at `init`: the first
call's `since_watermark` is `init` and each later call's `since_watermark`
is the watermark returned by the immediately preceding call. -/
def passesForward {S : Type} (init : S) : List (S × S) → Prop
  | [] => True
  | (since, ret) :: rest => since = init ∧ passesForward ret rest

/-- The watermark that would be passed to the next call after the logged
calls: the last returned watermark, or `init` if no call happened yet. -/
def chainEnd {S : Type} (init : S) (calls : List (S × S)) : S :=
  calls.foldl (fun _ p => p.2) init

/-- Loop invariant of `inc_dump` tying the call log to the live
`undumped_score` variable, together with the storage frame condition. -/
def IncDumpInv {M S : Type} (init : S) (st : IncDumpState M S) : Prop :=
  passesForward init st.calls ∧ chainEnd init st.calls = st.score ∧
    ∀ p, DriverEffect.fileWrite p ∉ st.effects

/-- Appending one call that picks up the current chain end preserves the
forward-passing property. -/
theorem passesForward_append {S : Type} :
    ∀ (init : S) (xs : List (S × S)) (b : S),
      passesForward init xs → passesForward init (xs ++ [(chainEnd init xs, b)])
  | _, [], _, _ => ⟨rfl, trivial⟩
  | _, (_, r) :: rest, b, h =>
    ⟨h.1, passesForward_append r rest b h.2⟩

/-- The chain end after appending one call is that call's returned
watermark. -/
theorem chainEnd_append {S : Type} (init : S) (xs : List (S × S)) (a b : S) :
    chainEnd init (xs ++ [(a, b)]) = b := by
  unfold chainEnd
  rw [List.foldl_append]
  rfl

/-- One batch iteration preserves the `inc_dump` invariant. -/
theorem incDumpBatch_inv {M S T : Type} (trainStep : M → M)
    (incDumpFn : M → S → T × S) (init : S) (st : IncDumpState M S) (b : ℕ)
    (h : IncDumpInv init st) :
    IncDumpInv init (incDumpBatch trainStep incDumpFn st b) := by
  obtain ⟨hchain, hend, hfx⟩ := h
  unfold incDumpBatch
  by_cases hb : b % 100 = 0
  · rw [if_pos hb]
    refine ⟨?_, ?_, ?_⟩
    · rw [← hend]
      exact passesForward_append init st.calls _ hchain
    · exact chainEnd_append init st.calls _ _
    · intro p hp
      rcases List.mem_append.mp hp with h1 | h1
      · exact hfx p h1
      · simp at h1
  · rw [if_neg hb]
    exact ⟨hchain, hend, hfx⟩

/-- Folding the batch loop over any list of batch indices preserves the
invariant. -/
theorem foldl_incDumpBatch_inv {M S T : Type} (trainStep : M → M)
    (incDumpFn : M → S → T × S) (init : S) :
    ∀ (l : List ℕ) (st : IncDumpState M S), IncDumpInv init st →
      IncDumpInv init (l.foldl (incDumpBatch trainStep incDumpFn) st)
  | [], _, h => h
  | b :: rest, st, h =>
    foldl_incDumpBatch_inv trainStep incDumpFn init rest _
      (incDumpBatch_inv trainStep incDumpFn init st b h)

/-- One epoch preserves the invariant. -/
theorem incDumpEpoch_inv {M S T : Type} (trainStep : M → M)
    (incDumpFn : M → S → T × S) (init : S) (numBatches : ℕ)
    (st : IncDumpState M S) (h : IncDumpInv init st) :
    IncDumpInv init (incDumpEpoch trainStep incDumpFn numBatches st) := by
  obtain ⟨hchain, hend, hfx⟩ :=
    foldl_incDumpBatch_inv trainStep incDumpFn init (List.range numBatches) st h
  refine ⟨hchain, hend, ?_⟩
  intro p hp
  rcases List.mem_append.mp hp with h1 | h1
  · exact hfx p h1
  · simp at h1

/-- Folding the epoch loop preserves the invariant. -/
theorem foldl_incDumpEpoch_inv {M S T : Type} (trainStep : M → M)
    (incDumpFn : M → S → T × S) (init : S) (numBatches : ℕ) :
    ∀ (es : List ℕ) (st : IncDumpState M S), IncDumpInv init st →
      IncDumpInv init
        (es.foldl (fun st _ => incDumpEpoch trainStep incDumpFn numBatches st) st)
  | [], _, h => h
  | _ :: rest, st, h =>
    foldl_incDumpEpoch_inv trainStep incDumpFn init numBatches rest _
      (incDumpEpoch_inv trainStep incDumpFn init numBatches st h)

/-- The whole `inc_dump` run satisfies the invariant with respect to the
initial `get_score` watermark. -/
theorem inc_dump_inv {M S T : Type} (trainStep : M → M) (getScore : M → S)
    (incDumpFn : M → S → T × S) (m0 : M) (numEpochs numBatches : ℕ) :
    IncDumpInv (getScore m0)
      (inc_dump trainStep getScore incDumpFn m0 numEpochs numBatches) := by
  unfold inc_dump
  refine foldl_incDumpEpoch_inv trainStep incDumpFn (getScore m0) numBatches
    (List.range numEpochs) _ ⟨trivial, rfl, ?_⟩
  intro p hp
  simp at hp

/-- C4: in the incremental-dump driver `inc_dump`, watermarks are
monotonically passed forward: the first `incremental_dump` call receives
the watermark returned by `get_score`, and every subsequent call receives
exactly the watermark returned by the immediately preceding call, so no
call is made with a watermark other than the previously returned one. -/
theorem inc_dump_watermarks_passed_forward {M S T : Type} (trainStep : M → M)
    (getScore : M → S) (incDumpFn : M → S → T × S) (m0 : M)
    (numEpochs numBatches : ℕ) :
    passesForward (getScore m0)
      (inc_dump trainStep getScore incDumpFn m0 numEpochs numBatches).calls :=
  (inc_dump_inv trainStep getScore incDumpFn m0 numEpochs numBatches).1

/-- C5: the incremental-dump driver writes none of the rows returned by
`incremental_dump` to stable storage: its effect trace contains no file
write (the returned tensors are only counted for a log line). -/
theorem inc_dump_no_file_writes {M S T : Type} (trainStep : M → M)
    (getScore : M → S) (incDumpFn : M → S → T × S) (m0 : M)
    (numEpochs numBatches : ℕ) (p : String) :
    DriverEffect.fileWrite p ∉
      (inc_dump trainStep getScore incDumpFn m0 numEpochs numBatches).effects :=
  (inc_dump_inv trainStep getScore incDumpFn m0 numEpochs numBatches).2.2 p

/-! ## Dataset split (MovieLensDataset, example.py)

After joining ratings with user and movie attributes, the constructor sorts
the joined table by the `timestamp` column ascending
(`data.sort_values("timestamp")`), computes
`split_idx = int(len(data) * 0.8)` and takes the first `split_idx` rows as
the train split and the rest as the test split. The external sort routine
is modelled as insertion sort by timestamp, which realizes the same
contract (a permutation of the rows that is non-decreasing in
`timestamp`); the sorting algorithm pandas actually uses is left abstract
for any property beyond that contract. -/

/-- One row of the joined ratings/users/movies table. -/
structure JoinedRecord where
  user_id : ℕ
  movie_id : ℕ
  rating : ℚ
  timestamp : ℤ
  gender : ℕ
  age : ℕ
  occupation : ℕ
  year : ℕ
  deriving DecidableEq

/-- Timestamp comparison used by the sort. -/
def tsLE (a b : JoinedRecord) : Prop :=
  a.timestamp ≤ b.timestamp

instance : DecidableRel tsLE := fun a b => Int.decLe a.timestamp b.timestamp

instance : IsTotal JoinedRecord tsLE :=
  ⟨fun a b => Int.le_total a.timestamp b.timestamp⟩

instance : IsTrans JoinedRecord tsLE :=
  ⟨fun _ _ _ => Int.le_trans⟩

/-- Embedding of `data.sort_values("timestamp")`: the joined rows reordered
to be non-decreasing in `timestamp`. -/
def sort_values_timestamp (l : List JoinedRecord) : List JoinedRecord :=
  List.insertionSort tsLE l

/-- Embedding of `split_idx = int(len(data) * 0.8)` with exact
arithmetic. -/
def split_idx (n : ℕ) : ℕ :=
  4 * n / 5

/-- The train split: first `split_idx` rows of the time-ordered data. -/
def trainData (l : List JoinedRecord) : List JoinedRecord :=
  (sort_values_timestamp l).take (split_idx l.length)

/-- The test split: remaining rows of the time-ordered data. -/
def testData (l : List JoinedRecord) : List JoinedRecord :=
  (sort_values_timestamp l).drop (split_idx l.length)

/-- Every train row's timestamp is at most every test row's timestamp. -/
theorem trainData_le_testData (l : List JoinedRecord) :
    ∀ x ∈ trainData l, ∀ y ∈ testData l, x.timestamp ≤ y.timestamp := by
  have hs : List.Sorted tsLE (sort_values_timestamp l) :=
    List.sorted_insertionSort tsLE l
  rw [← List.take_append_drop (split_idx l.length) (sort_values_timestamp l)] at hs
  exact fun x hx y hy => (List.pairwise_append.mp hs).2.2 x hx y hy

/-- C6: the 80/20 prefix split after sorting by timestamp is temporally
causal: the maximum timestamp among the train records is at most the
minimum timestamp among the test records. -/
theorem split_temporally_causal (l : List JoinedRecord) (a b : ℤ)
    (ha : ((trainData l).map JoinedRecord.timestamp).maximum = (a : WithBot ℤ))
    (hb : ((testData l).map JoinedRecord.timestamp).minimum = (b : WithTop ℤ)) :
    a ≤ b := by
  have hma : a ∈ (trainData l).map JoinedRecord.timestamp := List.maximum_mem ha
  have hmb : b ∈ (testData l).map JoinedRecord.timestamp := List.minimum_mem hb
  obtain ⟨x, hx, hxa⟩ := List.mem_map.mp hma
  obtain ⟨y, hy, hyb⟩ := List.mem_map.mp hmb
  rw [← hxa, ← hyb]
  exact trainData_le_testData l x hx y hy

/-- Concrete five-record joined table for the split witness. -/
def exRecords : List JoinedRecord :=
  [⟨1, 101, 5, 30, 1, 25, 4, 1995⟩,
   ⟨2, 102, 3, 10, 0, 30, 7, 1990⟩,
   ⟨3, 103, 4, 50, 1, 22, 2, 2000⟩,
   ⟨4, 104, 2, 20, 0, 35, 1, 1985⟩,
   ⟨5, 105, 5, 40, 1, 28, 3, 1999⟩]

/-- Witness for C6 on the concrete table: train maximum 40, test minimum
50. -/
theorem split_temporally_causal_witness :
    ((trainData exRecords).map JoinedRecord.timestamp).maximum =
        ((40 : ℤ) : WithBot ℤ) ∧
      ((testData exRecords).map JoinedRecord.timestamp).minimum =
        ((50 : ℤ) : WithTop ℤ) ∧
      (40 : ℤ) ≤ 50 :=
  ⟨by decide, by decide,
    split_temporally_causal exRecords 40 50 (by decide) (by decide)⟩

/-! ## Main control flow (main and download_movielens, example.py) -/

/-- The steps `main` performs in one process, in order. -/
inductive MainStep where
  | initDistributed
  | setupRankPrint
  | setSeeds
  | download
  | barrier
  | runTrain
  | runDump
  | runLoad
  | runIncDump
  | destroyProcessGroup
  deriving DecidableEq

/-- Mode selector flags (`--train`, `--dump`, `--load`,
`--incremental_dump`). -/
structure ModeFlags where
  train : Bool
  dump : Bool
  load : Bool
  incremental_dump : Bool
  deriving DecidableEq

/-- Embedding of `download_movielens`: its body is guarded by
`if global_rank == 0`; `main` calls it without passing a rank, so the
parameter takes its default value 0. -/
def download_movielens_steps (global_rank : ℕ) : List MainStep :=
  if global_rank = 0 then [MainStep.download] else []

/-- Is the step one of the four mode functions? -/
def isModeStep : MainStep → Bool
  | MainStep.runTrain => true
  | MainStep.runDump => true
  | MainStep.runLoad => true
  | MainStep.runIncDump => true
  | _ => false

/-- Embedding of `main` for one process: its download guard tests
`args.local_rank == 0` (not the process's global rank, which `main` obtains
from the process group but does not consult here), the call passes no rank
so `download_movielens` sees its default rank 0, and `dist.barrier()`
follows before the selected mode functions run. -/
def main_steps (globalRank localRank : ℕ) (fl : ModeFlags) : List MainStep :=
  [MainStep.initDistributed, MainStep.setupRankPrint, MainStep.setSeeds] ++
    (if localRank = 0 then download_movielens_steps 0 else []) ++
    [MainStep.barrier] ++
    (if fl.train then [MainStep.runTrain] else []) ++
    (if fl.dump then [MainStep.runDump] else []) ++
    (if fl.load then [MainStep.runLoad] else []) ++
    (if fl.incremental_dump then [MainStep.runIncDump] else []) ++
    [MainStep.destroyProcessGroup]

/-- C8 counterexample: a process with global rank 2 but local rank 0 (the
first process of a second node) does invoke the download, so the download
is not restricted to the process whose rank is 0. -/
theorem download_not_global_rank_gated :
    MainStep.download ∈ main_steps 2 0 ⟨true, false, false, false⟩ ∧
      (2 : ℕ) ≠ 0 := by
  constructor
  · decide
  · decide

/-- The part of the `main` trace before the barrier. -/
def mainPre (localRank : ℕ) : List MainStep :=
  [MainStep.initDistributed, MainStep.setupRankPrint, MainStep.setSeeds] ++
    (if localRank = 0 then download_movielens_steps 0 else [])

/-- The part of the `main` trace after the barrier. -/
def mainPost (fl : ModeFlags) : List MainStep :=
  (if fl.train then [MainStep.runTrain] else []) ++
    (if fl.dump then [MainStep.runDump] else []) ++
    (if fl.load then [MainStep.runLoad] else []) ++
    (if fl.incremental_dump then [MainStep.runIncDump] else []) ++
    [MainStep.destroyProcessGroup]

/-- The trace of `main` splits at the barrier. -/
theorem main_steps_decomp (globalRank localRank : ℕ) (fl : ModeFlags) :
    main_steps globalRank localRank fl =
      mainPre localRank ++ MainStep.barrier :: mainPost fl := by
  simp [main_steps, mainPre, mainPost]

/-- C8 amended: `download_movielens` is invoked exactly in the processes
whose local rank is 0 (one per node, regardless of global rank), and the
trace places one barrier after the download step and before every mode
function. -/
theorem main_download_and_barrier (globalRank localRank : ℕ) (fl : ModeFlags) :
    (MainStep.download ∈ main_steps globalRank localRank fl ↔ localRank = 0) ∧
      ∃ pre post, main_steps globalRank localRank fl =
          pre ++ MainStep.barrier :: post ∧
        (∀ m ∈ pre, isModeStep m = false) ∧
        MainStep.download ∉ post := by
  refine ⟨?_, mainPre localRank, mainPost fl, main_steps_decomp _ _ _, ?_, ?_⟩
  · constructor
    · intro hmem
      by_contra hl
      rw [main_steps_decomp] at hmem
      rcases List.mem_append.mp hmem with h1 | h1
      · revert h1
        simp [mainPre, download_movielens_steps, hl]
      · revert h1
        rcases fl with ⟨t, d, ld, inc⟩
        simp only [List.mem_cons]
        rintro (h | h)
        · exact MainStep.noConfusion h
        · revert h
          unfold mainPost
          cases t <;> cases d <;> cases ld <;> cases inc <;> decide
    · intro hl
      rw [main_steps_decomp]
      refine List.mem_append.mpr (Or.inl ?_)
      simp [mainPre, download_movielens_steps, hl]
  · intro m hm
    unfold mainPre at hm
    rcases List.mem_append.mp hm with h1 | h1
    · simp only [List.mem_cons, List.not_mem_nil, or_false] at h1
      rcases h1 with h | h | h <;> rw [h] <;> rfl
    · by_cases hl : localRank = 0
      · rw [if_pos hl] at h1
        unfold download_movielens_steps at h1
        rw [if_pos rfl] at h1
        simp only [List.mem_singleton] at h1
        rw [h1]
        rfl
      · rw [if_neg hl] at h1
        exact absurd h1 (List.not_mem_nil m)
  · rcases fl with ⟨t, d, ld, inc⟩
    unfold mainPost
    cases t <;> cases d <;> cases ld <;> cases inc <;> decide

/-! ## CLI argument defaults (parse_args, example.py) -/

/-- How a flag's default value is produced when the flag is unset: either a
fixed literal, or a read of an environment variable with a fallback used
when the variable is absent. -/
inductive ArgDefault where
  | lit (value : String)
  | envOr (varName : String) (fallback : String)
  deriving DecidableEq

/-- The value a default produces under an environment. -/
def defaultValue (env : String → Option String) : ArgDefault → String
  | ArgDefault.lit s => s
  | ArgDefault.envOr v fb => (env v).getD fb

/-- Does the default read an environment variable? -/
def readsEnv : ArgDefault → Bool
  | ArgDefault.lit _ => false
  | ArgDefault.envOr _ _ => true

/-- Embedding of the `default=` expressions of `parse_args`, one entry per
value-taking flag (the four `store_true` mode selectors have no default
expression and are not listed). -/
def parse_args_defaults : List (String × ArgDefault) :=
  [("--data_path", ArgDefault.lit "./ml-1m"),
   ("--epochs", ArgDefault.lit "5"),
   ("--batch_size", ArgDefault.lit "1024"),
   ("--lr", ArgDefault.lit "0.01"),
   ("--embedding_dim", ArgDefault.lit "64"),
   ("--num_embeddings", ArgDefault.lit "10000"),
   ("--mlp_dims", ArgDefault.lit "128,64,32"),
   ("--save_dir", ArgDefault.lit "./model_checkpoints"),
   ("--seed", ArgDefault.lit "42"),
   ("--local_rank", ArgDefault.envOr "LOCAL_RANK" "0"),
   ("--local_world_size", ArgDefault.envOr "LOCAL_WORLD_SIZE" "1"),
   ("--node_rank", ArgDefault.envOr "RANK" "0"),
   ("--num_nodes", ArgDefault.envOr "PET_NNODES" "1"),
   ("--master_addr", ArgDefault.envOr "MASTER_ADDR" "localhost"),
   ("--master_port", ArgDefault.envOr "MASTER_PORT" "29500"),
   ("--backend", ArgDefault.lit "nccl")]

/-- The flags listed by the external-interface section of the spec. -/
def listedFlags : List String :=
  ["--data_path", "--epochs", "--batch_size", "--lr", "--embedding_dim",
   "--num_embeddings", "--mlp_dims", "--save_dir", "--seed", "--local_rank",
   "--local_world_size", "--node_rank", "--num_nodes", "--master_addr",
   "--master_port", "--backend"]

/-- The flags whose `default=` expression actually reads an environment
variable in `parse_args`. -/
def envDefaultFlags : List String :=
  ["--local_rank", "--local_world_size", "--node_rank", "--num_nodes",
   "--master_addr", "--master_port"]

/-- C9 counterexample: `--data_path` is among the listed flags, but its
default is the fixed literal `./ml-1m`, read from no environment
variable. -/
theorem data_path_default_not_env :
    "--data_path" ∈ listedFlags ∧
      ("--data_path", ArgDefault.lit "./ml-1m") ∈ parse_args_defaults ∧
      ¬ (∀ f ∈ listedFlags, ∀ d : ArgDefault,
          (f, d) ∈ parse_args_defaults → readsEnv d = true) := by
  refine ⟨by decide, by decide, fun h => ?_⟩
  have := h "--data_path" (by decide) (ArgDefault.lit "./ml-1m") (by decide)
  exact absurd this (by decide)

/-- C9 amended: among the listed flags, exactly the six distributed-launch
flags (`--local_rank`, `--local_world_size`, `--node_rank`, `--num_nodes`,
`--master_addr`, `--master_port`) take their default from an environment
variable when unset; the other ten flags default to fixed literals. -/
theorem env_defaults_exactly_distributed_flags (f : String) (d : ArgDefault)
    (hmem : (f, d) ∈ parse_args_defaults) :
    readsEnv d = true ↔ f ∈ envDefaultFlags := by
  fin_cases hmem <;> decide

/-- Witness for the amended C9 at `--local_rank`. -/
theorem env_defaults_exactly_distributed_flags_witness :
    ("--local_rank", ArgDefault.envOr "LOCAL_RANK" "0") ∈ parse_args_defaults ∧
      (readsEnv (ArgDefault.envOr "LOCAL_RANK" "0") = true ↔
        "--local_rank" ∈ envDefaultFlags) :=
  ⟨by decide, env_defaults_exactly_distributed_flags "--local_rank"
    (ArgDefault.envOr "LOCAL_RANK" "0") (by decide)⟩

/-! ## L2 normalization (L2NormEmbeddingPostprocessor.forward,
output_postprocessors.py)

The tensor arithmetic is modelled over the exact reals, one embedding
vector as a list of its components along the last axis. -/

/-- The L2 norm of a vector (`torch.linalg.norm` with `ord=None` on the
last axis). -/
noncomputable def l2_norm (v : List ℝ) : ℝ :=
  Real.sqrt (v.map fun x => x * x).sum

/-- Embedding of `torch.clamp (·, min=eps)`. -/
def clamp_min (x lo : ℝ) : ℝ :=
  max x lo

/-- The divisor used by `L2NormEmbeddingPostprocessor.forward`: the L2 norm
of the input truncated to the first `embedding_dim` components, clamped
from below to `eps`. -/
noncomputable def l2_divisor (embedding_dim : ℕ) (eps : ℝ) (v : List ℝ) : ℝ :=
  clamp_min (l2_norm (v.take embedding_dim)) eps

/-- Embedding of `L2NormEmbeddingPostprocessor.forward` on one embedding
vector: truncate to the first `embedding_dim` components, then divide
componentwise by the clamped norm. -/
noncomputable def l2norm_forward (embedding_dim : ℕ) (eps : ℝ) (v : List ℝ) :
    List ℝ :=
  (v.take embedding_dim).map fun x => x / l2_divisor embedding_dim eps v

/-- C10: `L2NormEmbeddingPostprocessor.forward` never divides by zero: for
every input vector and every `eps > 0`, the divisor is at least `eps`,
hence strictly positive and nonzero. -/
theorem l2_divisor_pos (embedding_dim : ℕ) (eps : ℝ) (v : List ℝ)
    (heps : 0 < eps) :
    eps ≤ l2_divisor embedding_dim eps v ∧
      0 < l2_divisor embedding_dim eps v ∧
      l2_divisor embedding_dim eps v ≠ 0 := by
  have hle : eps ≤ l2_divisor embedding_dim eps v := le_max_right _ _
  have hpos : 0 < l2_divisor embedding_dim eps v := lt_of_lt_of_le heps hle
  exact ⟨hle, hpos, ne_of_gt hpos⟩

/-- Witness for C10 at `embedding_dim = 2`, `eps = 1/1000000`,
`v = [3, 4]`. -/
theorem l2_divisor_pos_witness :
    (0 : ℝ) < 1 / 1000000 ∧
      ((1 : ℝ) / 1000000 ≤ l2_divisor 2 (1 / 1000000) [3, 4] ∧
        0 < l2_divisor 2 (1 / 1000000) [3, 4] ∧
        l2_divisor 2 (1 / 1000000) [3, 4] ≠ 0) :=
  ⟨by norm_num, l2_divisor_pos 2 (1 / 1000000) [3, 4] (by norm_num)⟩

end RecsysExamples

